import Mathlib

/-!
Verification of the PyGeM free-form-deformation core against its
specification.  The source files are src/pygem/ffd.py (class FFD, old API)
and src/pygem/vffd.py (class VFFD).  Numbers are modelled by the rationals.
-/

/-- A 3-component point, mirroring one row of a numpy (n,3) array. -/
abbrev Point3 : Type := ℚ × ℚ × ℚ

/-- An ordered point cloud, mirroring a numpy (n,3) array of mesh points. -/
abbrev Points : Type := List Point3

/-- An affine map on points, as returned by affine_points_fit. -/
abbrev AffMap : Type := Point3 → Point3

/-- Modelled from the spec: affine_points_fit (pygem/affine_trans.py is not
part of the source under review) returns a callable affine map; FFD.perform
uses the fitted forward map and the fitted inverse map.  We therefore
parametrize the embedding of FFD.perform by those two maps. -/
def affApply (f : AffMap) (p : Point3) : Point3 := f p

/-- The FFD parameters read by FFD.perform: box origin, and the three
displacement arrays array_mu_x/y/z of shape (dimN, dimM, dimT), stored as
index functions. -/
structure FFDParams where
  originBox : Point3
  dimN : ℕ
  dimM : ℕ
  dimT : ℕ
  muX : ℕ → ℕ → ℕ → ℚ
  muY : ℕ → ℕ → ℕ → ℚ
  muZ : ℕ → ℕ → ℕ → ℚ

/-- One row of a Bernstein basis matrix, as filled by the three loops of
FFD.perform: entry i is binom(d-1, i) * (1-t)^(d-1-i) * t^i for i in
range(d), where t is the reference-frame coordinate of the point on the
given axis. -/
def bernsteinRow (d : ℕ) (t : ℚ) : List ℚ :=
  (List.range d).map (fun i => (Nat.choose (d - 1) i : ℚ) * (1 - t) ^ (d - 1 - i) * t ^ i)

/-- The triple loop of FFD.perform accumulating over all control indices
(i, j, k): the sum of f i j k for i in range dN, j in range dM, k in
range dT. -/
def triSum (dN dM dT : ℕ) (f : ℕ → ℕ → ℕ → ℚ) : ℚ :=
  (((List.range dN).map (fun i =>
    (((List.range dM).map (fun j =>
      (((List.range dT).map (fun k => f i j k)).sum))).sum))).sum)

/-- The accumulated shift of one mesh point in FFD.perform, before the
containment mask: for each control index (i,j,k),
aux = bernstein_x[p,i] * (bernstein_y[p,j] * bernstein_z[p,k]) and the
x/y/z shift components accumulate aux * array_mu_x/y/z[i,j,k]. -/
def ffdShiftPoint (T : AffMap) (par : FFDParams) (p : Point3) : Point3 :=
  let r := T (p - par.originBox)
  let bX := bernsteinRow par.dimN r.1
  let bY := bernsteinRow par.dimM r.2.1
  let bZ := bernsteinRow par.dimT r.2.2
  ( triSum par.dimN par.dimM par.dimT
      (fun i j k => bX.getD i 0 * (bY.getD j 0 * bZ.getD k 0) * par.muX i j k)
  , triSum par.dimN par.dimM par.dimT
      (fun i j k => bX.getD i 0 * (bY.getD j 0 * bZ.getD k 0) * par.muY i j k)
  , triSum par.dimN par.dimM par.dimT
      (fun i j k => bX.getD i 0 * (bY.getD j 0 * bZ.getD k 0) * par.muZ i j k) )

/-- The containment test of FFD.perform, line for line: a point is masked
when any reference-frame coordinate is < 0 or > 1 (strict comparisons). -/
def outsideBox (r : Point3) : Prop :=
  r.1 < 0 ∨ r.2.1 < 0 ∨ r.2.2 < 0 ∨ r.1 > 1 ∨ r.2.1 > 1 ∨ r.2.2 > 1

instance (r : Point3) : Decidable (outsideBox r) := by
  unfold outsideBox; infer_instance

/-- The action of FFD.perform on a single mesh point: map to the reference
frame (subtract the origin, apply the fitted transformation), accumulate the
Bernstein shift, zero the shift if the point is outside the unit box, map
back with the fitted inverse transformation and add the origin back.  All
numpy operations of FFD.perform act row-independently, so perform is the
map of this function over the rows. -/
def performPoint (T Tinv : AffMap) (par : FFDParams) (p : Point3) : Point3 :=
  Tinv ((if outsideBox (T (p - par.originBox))
          then (((0 : ℚ), (0 : ℚ), (0 : ℚ)) : Point3)
          else ffdShiftPoint T par p)
        + T (p - par.originBox)) + par.originBox

/-- FFD.perform on a whole point cloud, with the fitted forward and inverse
affine maps passed as parameters (see affApply). -/
def perform (T Tinv : AffMap) (par : FFDParams) (pts : Points) : Points :=
  pts.map (performPoint T Tinv par)

/-- Name for the identity affine map used by the concrete witnesses. -/
def idMap : AffMap := fun q => q

/-- Concrete parameters for witnesses: origin at zero, 2x2x2 grid, all
displacement weights 1. -/
def wparOnes : FFDParams :=
  ⟨((0 : ℚ), (0 : ℚ), (0 : ℚ)), 2, 2, 2, fun _ _ _ => 1, fun _ _ _ => 1, fun _ _ _ => 1⟩

/-- Concrete parameters for witnesses: origin at zero, 1x1x1 grid, all
displacement weights 1. -/
def wparTiny : FFDParams :=
  ⟨((0 : ℚ), (0 : ℚ), (0 : ℚ)), 1, 1, 1, fun _ _ _ => 1, fun _ _ _ => 1, fun _ _ _ => 1⟩

/-- Concrete parameters for witnesses: origin at (1,0,0), 2x2x2 grid, all
displacement weights 0. -/
def wparZero : FFDParams :=
  ⟨((1 : ℚ), (0 : ℚ), (0 : ℚ)), 2, 2, 2, fun _ _ _ => 0, fun _ _ _ => 0, fun _ _ _ => 0⟩

/- ### VFFD (src/pygem/vffd.py) -/

/-- A triangle of vertex indices into the point cloud. -/
abbrev Tri : Type := ℕ × ℕ × ℕ

/-- Determinant of the 3x3 matrix whose rows are a, b and c, as computed by
np.linalg.det on one stacked triangle. -/
def det3 (a b c : Point3) : ℚ :=
  a.1 * (b.2.1 * c.2.2 - b.2.2 * c.2.1)
    - a.2.1 * (b.1 * c.2.2 - b.2.2 * c.1)
    + a.2.2 * (b.1 * c.2.1 - b.2.1 * c.1)

/-- The volume functional installed by VFFD.__init__: the sum over the
triangle list of the determinants of the stacked triangle vertices. -/
def vol (tri : List Tri) (pts : Points) : ℚ :=
  (tri.map (fun t =>
    det3 (pts.getD t.1 (((0 : ℚ), (0 : ℚ), (0 : ℚ)) : Point3))
         (pts.getD t.2.1 (((0 : ℚ), (0 : ℚ), (0 : ℚ)) : Point3))
         (pts.getD t.2.2 (((0 : ℚ), (0 : ℚ), (0 : ℚ)) : Point3)))).sum

/-- np.eye n, the identity weight matrix, as a list of rows. -/
def eye (n : ℕ) : List (List ℚ) :=
  (List.range n).map (fun i => (List.range n).map (fun j => if i = j then (1 : ℚ) else 0))

/-- Line 75 of vffd.py: vweight is replaced by its entrywise absolute value
divided by the sum of the absolute values. -/
def normalizeAbs (v : List ℚ) : List ℚ :=
  v.map (fun x => |x| / (v.map (fun y => |y|)).sum)

/-- Lines 78-81 of vffd.py: the controlled indices partitioned by index
mod 3 into the x, y and z channels, in that order.  Indices are flattened
control-point-coordinate positions, hence natural numbers. -/
def vffdIndexes (ind : List ℕ) : List (List ℕ) :=
  [ ind.filter (fun i => i % 3 == 0)
  , ind.filter (fun i => i % 3 == 1)
  , ind.filter (fun i => i % 3 == 2) ]

/-- The mutable attributes of the VFFD object that VFFD.__call__ reads and
writes: vweight, indices, M, fixval, and the displacement arrays of the
underlying deformer.  The displacement state is kept abstract (type D)
because it is owned by the external base class. -/
structure VState (D : Type) where
  vweight : List ℚ
  indices : List ℕ
  M : List (List ℚ)
  fixval : ℚ
  disp : D

/-- Modelled from the spec: the single-constraint corrector CFFD.__call__
(pygem/cffd.py is not part of the source under review).  Per the spec it
consumes the source points and the current indices, weight matrix and
target value, mutates the shared displacement arrays as a side effect and
returns the resulting deformed points. -/
abbrev Corr (D : Type) : Type :=
  Points → List ℕ → List (List ℚ) → ℚ → D → D × Points

/-- Modelled from the spec: the base deformation self.ffd used by CFFD
(not part of the source under review), reading the current displacement
arrays. -/
abbrev FFDEval (D : Type) : Type := D → Points → Points

/-- One iteration of the loop of VFFD.__call__ (lines 83-88): restrict the
indices to channel i, reset M to the identity of the restricted size, set
fixval to the currently realized volume plus this channel's share of diff,
and run the corrector (which mutates the displacement state). -/
def vffdStep {D : Type} (ffdE : FFDEval D) (corr : Corr D) (tri : List Tri)
    (src : Points) (indexes : List (List ℕ)) (diff : ℚ) (i : ℕ)
    (s : VState D) : VState D :=
  let ind := indexes.getD i []
  let m := eye ind.length
  let f := vol tri (ffdE s.disp src) + s.vweight.getD i 0 * diff
  { s with indices := ind, M := m, fixval := f, disp := (corr src ind m f s.disp).1 }

/-- The VFFD object state after the vweight normalization (stage 0) and
after each of the first n loop iterations of VFFD.__call__; diffvolume is
computed from the entry state, once, before the loop. -/
def vffdStage {D : Type} (ffdE : FFDEval D) (corr : Corr D) (tri : List Tri)
    (s : VState D) (src : Points) : ℕ → VState D
  | 0 => { s with vweight := normalizeAbs s.vweight }
  | n + 1 =>
      vffdStep ffdE corr tri src (vffdIndexes s.indices)
        (s.fixval - vol tri (ffdE s.disp src)) n
        (vffdStage ffdE corr tri s src n)

/-- VFFD.__call__ (lines 74-91): normalize vweight, back up the indices,
partition them by channel, compute diffvolume once, run the three per-axis
passes, run the corrector one more time on the state left by the loop,
restore the indices to the backup, and return the points of that last
corrector invocation. -/
def vffdCall {D : Type} (ffdE : FFDEval D) (corr : Corr D) (tri : List Tri)
    (s : VState D) (src : Points) : VState D × Points :=
  let s3 := vffdStage ffdE corr tri s src 3
  let r := corr src s3.indices s3.M s3.fixval s3.disp
  ({ s3 with disp := r.1, indices := s.indices }, r.2)

/-- Concrete displacement-free corrector for the C1 counterexample: it
leaves the displacement state alone and returns a single point whose first
coordinate records the sum of the indices it was invoked with. -/
def cexCorr : Corr Unit :=
  fun _ ind _ _ d => (d, [(((ind.sum : ℕ) : ℚ), (0 : ℚ), (0 : ℚ))])

/-- Concrete base deformation for the C1 counterexample: the identity. -/
def cexFfdE : FFDEval Unit := fun _ p => p

/-- Concrete entry state for the C1 counterexample: controlled indices
0, 1 and 2 (one per channel), equal axis weights, target 0. -/
def cexState : VState Unit :=
  ⟨[1, 1, 1], [0, 1, 2], [], 0, ()⟩

/-- Concrete source points for the C1 counterexample. -/
def cexSrc : Points := []

/- ### helper lemmas -/

/-- Sum of a mapped range, list form to Finset form. -/
theorem list_range_map_sum (n : ℕ) (f : ℕ → ℚ) :
    ((List.range n).map f).sum = ∑ i ∈ Finset.range n, f i := by
  induction n with
  | zero => simp
  | succ m ih =>
      rw [List.range_succ, List.map_append, List.sum_append,
        Finset.sum_range_succ, ih]
      simp

/-- A triple sum of zeros is zero. -/
theorem triSum_zero (dN dM dT : ℕ) (f : ℕ → ℕ → ℕ → ℚ)
    (h : ∀ i j k, f i j k = 0) : triSum dN dM dT f = 0 := by
  unfold triSum
  apply List.sum_eq_zero
  intro x hx
  simp only [List.mem_map, List.mem_range] at hx
  obtain ⟨i, _, rfl⟩ := hx
  apply List.sum_eq_zero
  intro y hy
  simp only [List.mem_map, List.mem_range] at hy
  obtain ⟨j, _, rfl⟩ := hy
  apply List.sum_eq_zero
  intro z hz
  simp only [List.mem_map, List.mem_range] at hz
  obtain ⟨k, _, rfl⟩ := hz
  exact h i j k

/-- Adding the zero triple on the left is the identity. -/
theorem zero_triple_add (v : Point3) :
    (((0 : ℚ), (0 : ℚ), (0 : ℚ)) : Point3) + v = v := by
  obtain ⟨a, b, c⟩ := v
  show (0 + a, 0 + b, 0 + c) = (a, b, c)
  simp

/- ### claim theorems for FFD.perform -/

/-- C3: for every input point whose reference-frame coordinate on any axis
is strictly less than 0 or strictly greater than 1, FFD.perform zeroes that
point's accumulated shift, so the point is returned as the affine
round-trip of its input position, regardless of the displacement weights. -/
theorem ffd_outside_point_roundtrip (T Tinv : AffMap) (par : FFDParams)
    (p : Point3) (h : outsideBox (T (p - par.originBox))) :
    performPoint T Tinv par p = Tinv (T (p - par.originBox)) + par.originBox := by
  unfold performPoint
  rw [if_pos h, zero_triple_add]

/-- Witness for C3 at a concrete point with reference x-coordinate 2. -/
theorem ffd_outside_point_roundtrip_witness :
    performPoint idMap idMap wparOnes (((2 : ℚ), (1 / 2 : ℚ), (1 / 2 : ℚ)) : Point3)
    = idMap (idMap ((((2 : ℚ), (1 / 2 : ℚ), (1 / 2 : ℚ)) : Point3)
        - wparOnes.originBox)) + wparOnes.originBox :=
  ffd_outside_point_roundtrip idMap idMap wparOnes _
    (by norm_num [outsideBox, idMap, wparOnes])

/-- C9: the containment cutoff is boundary-inclusive: a point whose
reference-frame coordinates all lie in the closed interval [0,1] (endpoints
included) keeps its full Bernstein shift, since the comparisons in the mask
are strict. -/
theorem ffd_boundary_keeps_shift (T Tinv : AffMap) (par : FFDParams)
    (p : Point3)
    (h : 0 ≤ (T (p - par.originBox)).1 ∧ (T (p - par.originBox)).1 ≤ 1 ∧
         0 ≤ (T (p - par.originBox)).2.1 ∧ (T (p - par.originBox)).2.1 ≤ 1 ∧
         0 ≤ (T (p - par.originBox)).2.2 ∧ (T (p - par.originBox)).2.2 ≤ 1) :
    performPoint T Tinv par p
      = Tinv (ffdShiftPoint T par p + T (p - par.originBox)) + par.originBox := by
  obtain ⟨h1, h2, h3, h4, h5, h6⟩ := h
  unfold performPoint
  rw [if_neg]
  unfold outsideBox
  push_neg
  exact ⟨h1, h3, h5, h2, h4, h6⟩

/-- Witness for C9 at a concrete point sitting exactly on the box boundary
(reference coordinates 0, 1, 1/2) with nonzero displacement weights. -/
theorem ffd_boundary_keeps_shift_witness :
    performPoint idMap idMap wparTiny (((0 : ℚ), (1 : ℚ), (1 / 2 : ℚ)) : Point3)
    = idMap (ffdShiftPoint idMap wparTiny (((0 : ℚ), (1 : ℚ), (1 / 2 : ℚ)) : Point3)
        + idMap ((((0 : ℚ), (1 : ℚ), (1 / 2 : ℚ)) : Point3) - wparTiny.originBox))
      + wparTiny.originBox :=
  ffd_boundary_keeps_shift idMap idMap wparTiny _
    (by norm_num [idMap, wparTiny])

/-- C4: if all entries of the three displacement arrays are zero then
FFD.perform returns the input point cloud unchanged, for any box, given the
affine-fit contract that the fitted inverse undoes the fitted forward map. -/
theorem ffd_identity_deformation (T Tinv : AffMap) (par : FFDParams)
    (pts : Points)
    (hx : ∀ i j k, par.muX i j k = 0)
    (hy : ∀ i j k, par.muY i j k = 0)
    (hz : ∀ i j k, par.muZ i j k = 0)
    (hinv : ∀ q, Tinv (T q) = q) :
    perform T Tinv par pts = pts := by
  have hpt : ∀ p : Point3, performPoint T Tinv par p = p := by
    intro p
    have hshift : ffdShiftPoint T par p = (((0 : ℚ), (0 : ℚ), (0 : ℚ)) : Point3) := by
      unfold ffdShiftPoint
      refine Prod.ext ?_ (Prod.ext ?_ ?_) <;>
        · apply triSum_zero
          intro i j k
          simp [hx, hy, hz]
    unfold performPoint
    rw [hshift, ite_self, zero_triple_add, hinv, sub_add_cancel]
  unfold perform
  induction pts with
  | nil => rfl
  | cons a l ih => simp [hpt, ih]

/-- Witness for C4: zero displacements on a 2x2x2 grid leave a concrete
point cloud unchanged. -/
theorem ffd_identity_deformation_witness :
    perform idMap idMap wparZero [(((1 / 2 : ℚ)), ((1 / 3 : ℚ)), ((2 : ℚ)))]
    = [(((1 / 2 : ℚ)), ((1 / 3 : ℚ)), ((2 : ℚ)))] :=
  ffd_identity_deformation idMap idMap wparZero _
    (fun _ _ _ => rfl) (fun _ _ _ => rfl) (fun _ _ _ => rfl) (fun _ => rfl)

/-- C5: the Bernstein basis matrix of FFD.perform has entries
binom(d-1, i) * (1-t)^(d-1-i) * t^i for i = 0..d-1, for every reference
coordinate t (also outside [0,1]); for grid size d = 1 the row is the
constant 1. -/
theorem ffd_bernstein_entries (d i : ℕ) (t : ℚ) (h : i < d) :
    (bernsteinRow d t).getD i 0
      = (Nat.choose (d - 1) i : ℚ) * (1 - t) ^ (d - 1 - i) * t ^ i
    ∧ bernsteinRow 1 t = [1] := by
  constructor
  · unfold bernsteinRow
    rw [List.getD_eq_getElem?_getD, List.getElem?_map]
    simp [List.getElem?_range, h]
  · unfold bernsteinRow
    have h1 : List.range 1 = [0] := rfl
    simp [h1]

/-- Witness for C5 at degree-2 grid (d = 3), entry i = 1, evaluated at the
out-of-box coordinate t = 5. -/
theorem ffd_bernstein_entries_witness :
    (bernsteinRow 3 5).getD 1 0
      = (Nat.choose (3 - 1) 1 : ℚ) * (1 - 5) ^ (3 - 1 - 1) * 5 ^ 1
    ∧ bernsteinRow 1 5 = [1] :=
  ffd_bernstein_entries 3 1 5 (by decide)

/-- C6: partition of unity: for every reference coordinate t and every grid
size d at least 1, the Bernstein basis values of FFD.perform sum to 1. -/
theorem ffd_bernstein_partition_of_unity (d : ℕ) (t : ℚ) (h : 1 ≤ d) :
    (bernsteinRow d t).sum = 1 := by
  obtain ⟨n, rfl⟩ : ∃ n, d = n + 1 := ⟨d - 1, (Nat.succ_pred_eq_of_pos h).symm⟩
  unfold bernsteinRow
  rw [list_range_map_sum]
  have hs : t + (1 - t) = 1 := by ring
  calc ∑ i ∈ Finset.range (n + 1),
        (Nat.choose (n + 1 - 1) i : ℚ) * (1 - t) ^ (n + 1 - 1 - i) * t ^ i
      = ∑ i ∈ Finset.range (n + 1), t ^ i * (1 - t) ^ (n - i) * (Nat.choose n i : ℚ) := by
        apply Finset.sum_congr rfl
        intro i _
        simp only [Nat.add_sub_cancel]
        ring
    _ = (t + (1 - t)) ^ n := (add_pow t (1 - t) n).symm
    _ = 1 := by rw [hs, one_pow]

/-- Witness for C6 at d = 3, t = 1/2. -/
theorem ffd_bernstein_partition_of_unity_witness :
    (bernsteinRow 3 (1 / 2)).sum = 1 :=
  ffd_bernstein_partition_of_unity 3 (1 / 2) (by norm_num)

/-- C7: FFD.perform preserves length and the index-to-vertex
correspondence: the output has the same length as the input and its i-th
entry is the deformation of the i-th input point. -/
theorem ffd_order_length_preserved (T Tinv : AffMap) (par : FFDParams)
    (pts : Points) :
    (perform T Tinv par pts).length = pts.length ∧
    ∀ i : ℕ, (perform T Tinv par pts)[i]?
      = (pts[i]?).map (performPoint T Tinv par) := by
  constructor
  · unfold perform
    exact List.length_map pts _
  · intro i
    unfold perform
    exact List.getElem?_map _ pts i

/- ### claim theorems for VFFD.__call__ -/

/-- The loop of VFFD.__call__ never writes vweight after the initial
normalization. -/
theorem vffdStage_vweight {D : Type} (ffdE : FFDEval D) (corr : Corr D)
    (tri : List Tri) (s : VState D) (src : Points) (n : ℕ) :
    (vffdStage ffdE corr tri s src n).vweight = normalizeAbs s.vweight := by
  induction n with
  | zero => rfl
  | succ m ih =>
      simp only [vffdStage, vffdStep]
      exact ih

/-- C1 counterexample: the final corrector invocation of VFFD.__call__ is
made before the controlled indices are restored, so it still sees the last
(z-channel) partition.  With a corrector that reports the sum of the
indices it receives, the call returns the report for indices [2], while the
claim predicts the report for the restored index set [0, 1, 2]. -/
theorem vffd_final_call_restored_cex :
    (vffdCall cexFfdE cexCorr [] cexState cexSrc).2 = [((2 : ℚ), (0 : ℚ), (0 : ℚ))]
    ∧ (cexCorr cexSrc cexState.indices
        (vffdStage cexFfdE cexCorr [] cexState cexSrc 3).M
        (vffdStage cexFfdE cexCorr [] cexState cexSrc 3).fixval
        (vffdStage cexFfdE cexCorr [] cexState cexSrc 3).disp).2
      = [((3 : ℚ), (0 : ℚ), (0 : ℚ))]
    ∧ ([((2 : ℚ), (0 : ℚ), (0 : ℚ))] : Points) ≠ [((3 : ℚ), (0 : ℚ), (0 : ℚ))] := by
  refine ⟨?_, ?_, ?_⟩
  · norm_num [vffdCall, vffdStage, vffdStep, vffdIndexes, normalizeAbs, vol,
      eye, cexCorr, cexFfdE, cexState, cexSrc]
  · norm_num [vffdCall, vffdStage, vffdStep, vffdIndexes, normalizeAbs, vol,
      eye, cexCorr, cexFfdE, cexState, cexSrc]
  · intro hcon
    have h2 := List.head_eq_of_cons_eq hcon
    have h3 : (2 : ℚ) = 3 := congrArg Prod.fst h2
    norm_num at h3

/-- C1 amended: after the three per-axis passes, VFFD.__call__ invokes the
corrector one final time with the indices still set to the last (z-channel)
partition and with the weight matrix and target left by the third pass; the
points returned by that invocation are the result, and only after it are
the controlled indices restored to their original pre-partition set. -/
theorem vffd_final_call_amended {D : Type} (ffdE : FFDEval D) (corr : Corr D)
    (tri : List Tri) (s : VState D) (src : Points) :
    (vffdCall ffdE corr tri s src).2
      = (corr src ((vffdIndexes s.indices).getD 2 [])
          (eye ((vffdIndexes s.indices).getD 2 []).length)
          (vffdStage ffdE corr tri s src 3).fixval
          (vffdStage ffdE corr tri s src 3).disp).2
    ∧ (vffdCall ffdE corr tri s src).1.indices = s.indices :=
  ⟨rfl, rfl⟩

/-- C2: diffvolume is the entry target minus the volume realized by the
entry displacement state, and the target passed to the corrector in pass i
is the volume realized by the displacement state left by the preceding
passes plus the normalized axis weight i times that original diffvolume. -/
theorem vffd_pass_targets {D : Type} (ffdE : FFDEval D) (corr : Corr D)
    (tri : List Tri) (s : VState D) (src : Points) (i : Fin 3) :
    (vffdStage ffdE corr tri s src ((i : ℕ) + 1)).fixval
      = vol tri (ffdE (vffdStage ffdE corr tri s src (i : ℕ)).disp src)
        + (normalizeAbs s.vweight).getD (i : ℕ) 0
          * (s.fixval - vol tri (ffdE s.disp src)) := by
  have hv := vffdStage_vweight ffdE corr tri s src (i : ℕ)
  simp only [vffdStage, vffdStep]
  rw [hv]

/-- C8: when VFFD.__call__ returns, the controlled indices are restored to
their entry value, the weight matrix is left as the identity sized to the
z-channel partition of the last pass, the target value is left as the last
pass's target, and vweight holds the normalized axis weights. -/
theorem vffd_post_state {D : Type} (ffdE : FFDEval D) (corr : Corr D)
    (tri : List Tri) (s : VState D) (src : Points) :
    (vffdCall ffdE corr tri s src).1.indices = s.indices
    ∧ (vffdCall ffdE corr tri s src).1.M
        = eye (((vffdIndexes s.indices).getD 2 []).length)
    ∧ (vffdCall ffdE corr tri s src).1.fixval
        = (vffdStage ffdE corr tri s src 3).fixval
    ∧ (vffdCall ffdE corr tri s src).1.vweight = normalizeAbs s.vweight := by
  refine ⟨rfl, rfl, rfl, ?_⟩
  exact vffdStage_vweight ffdE corr tri s src 3
